import Mathlib

/-!
Verification of the finances-ai persistence core and message pipeline.

Shallow embedding of the TypeScript source:
* `DrizzleDefaultRepository` (src/modules/shared — generic CRUD with optional
  soft delete and pagination) over tables modelled as lists of rows;
* the expense domain (`Expense` model, `ExpenseRepository`, `ExpenseUseCase`);
* `AuthService.checkAuthAndGetMessage`;
* the Discord message dispatch (`DiscordBotHandlerService.handleMessage`,
  `AudioProcessingService.isAudioFile`, `MessageProcessingService.sendDirectMessage`);
* the Fastify auth bridge (`server.route` handler in src/web-server.ts).

JavaScript strings are modelled as `String` (or `List Char` where chunking by
length matters), `Date` timestamps as `Nat`, possibly-`undefined`/`null` values
as `Option`, and a thrown JS exception as the `.error` case of `Except`.
External calls (the OAuth handler, the DM send) are parameters of the
embedding, never stubbed inside it.
-/

namespace FinancesAI

/-- A thrown JavaScript value, as observed by `catch` blocks in the source:
a plain `Error(message)`, an `AppError(code, message)` (src/core/errors/AppError.ts,
the only class the use cases test with `instanceof AppError`), or — because
`ExpenseRepository.mapToModel` executes `throw Expense.createFrom(data)` — a
thrown domain model, represented by its identifier here. -/
inductive Thrown where
  | jsError (message : String)
  | appError (code : String) (message : String)
  | thrownModel (modelId : String)
deriving DecidableEq, Repr

/-- The catch-translation used by every `ExpenseUseCase` method:
`if (error instanceof AppError) return {error: error.message}` else the
operation-specific generic message. -/
def collapseError (generic : String) : Thrown → String
  | .appError _ m => m
  | _ => generic

/-- JS truthiness of a `string | undefined` value (`undefined` and `''` are falsy). -/
def jsTruthyStr : Option String → Bool
  | none => false
  | some s => s != ""

/-- JS `v || dflt` for a `string | null | undefined` value. -/
def jsOrString (v : Option String) (dflt : String) : String :=
  match v with
  | some s => if s == "" then dflt else s
  | none => dflt

/-! ## Generic repository (`DrizzleDefaultRepository`, src/modules/shared/shared.module.ts)

A table is a `List (Row α)`: the base columns `id`, `createdAt`, `updatedAt`
plus the optional soft-delete column `deletedAt` and the entity-specific
columns bundled in `payload`.  Tables whose schema has no `deletedAt` column
are handled by the `hasDeletedAt : Bool` parameter, mirroring the source's
`this.table.deletedAt ? … : undefined` checks. -/

structure Row (α : Type) where
  id : String
  createdAt : Nat
  updatedAt : Nat
  deletedAt : Option Nat
  payload : α
deriving DecidableEq, Repr

/-- Insertion into a list sorted by `le` (used to model SQL `ORDER BY`). -/
def insertSortedBy (le : β → β → Bool) (a : β) : List β → List β
  | [] => [a]
  | b :: bs => if le a b then a :: b :: bs else b :: insertSortedBy le a bs

/-- Sort by the boolean comparison `le` (models SQL `ORDER BY`; the claims we
prove depend only on the multiset of results, never on tie-breaking). -/
def sortBy (le : β → β → Bool) : List β → List β
  | [] => []
  | a :: as => insertSortedBy le a (sortBy le as)

/-- `findAll(where?)`: all rows matching the optional predicate, with
`isNull(deletedAt)` added when the table has the soft-delete column, ordered by
`createdAt` ascending. -/
def findAll (hasDeletedAt : Bool) (pred : Option (Row α → Bool)) (tbl : List (Row α)) :
    List (Row α) :=
  let keep : Row α → Bool := fun r =>
    (match pred with
      | some p => p r
      | none => true) &&
    (if hasDeletedAt then r.deletedAt.isNone else true)
  sortBy (fun a b => a.createdAt ≤ b.createdAt) (tbl.filter keep)

inductive OrderDirection where
  | asc
  | desc
deriving DecidableEq, Repr

/-- `PaginationParams`; `none` models an absent (`undefined`) field, defaulted
by the destructuring `{page = 1, limit = 8, orderBy = 'createdAt',
orderDirection = 'desc'} = params` in the source. -/
structure PaginationParams where
  page : Option Nat
  limit : Option Nat
  orderBy : Option String
  orderDirection : Option OrderDirection
deriving DecidableEq, Repr

structure PaginatedResult (β : Type) where
  data : List β
  total : Nat
  page : Nat
  limit : Nat
  totalPages : Nat
deriving DecidableEq, Repr

/-- `Math.ceil(a / b)` as evaluated by the source's
`Math.ceil(total / limit)`, for natural operands and `1 ≤ b`. -/
def jsCeilDiv (a b : Nat) : Nat := (a + b - 1) / b

/-- `findWithPagination(params, where?)`.  The data query filters by `where`
only — the source adds no `deletedAt` condition here — orders by the column
`table[orderBy]` (resolved column passed as `key`; the source defaults
`orderBy` to `'createdAt'`), then applies `offset((page-1)*limit).limit(limit)`.
`total` is a `count()` over the same filtered query, taken before
offset/limit are applied. -/
def findWithPagination (params : PaginationParams) (pred : Option (Row α → Bool))
    (key : Row α → Nat) (tbl : List (Row α)) : PaginatedResult (Row α) :=
  let page := params.page.getD 1
  let limit := params.limit.getD 8
  let offset := (page - 1) * limit
  let filtered :=
    match pred with
    | some p => tbl.filter p
    | none => tbl
  let ordered :=
    match params.orderDirection.getD .desc with
    | .desc => sortBy (fun a b => key b ≤ key a) filtered
    | .asc => sortBy (fun a b => key a ≤ key b) filtered
  { data := (ordered.drop offset).take limit
    total := filtered.length
    page := page
    limit := limit
    totalPages := jsCeilDiv filtered.length limit }

/-- Raw `select().from(table).where(eq(table.id, id))` row lookup: the body of
`findById` before mapping.  Note it never filters on `deletedAt`. -/
def findRow (tbl : List (Row α)) (id : String) : Option (Row α) :=
  tbl.find? (fun r => r.id == id)

/-- `findById(id)`: `null` when no row matches, otherwise the concrete
repository's `mapToModel` applied to the row (which may itself throw — the
mapper is `Except`-valued to capture that). -/
def repoFindById (mapToModel : Row α → Except Thrown μ) (tbl : List (Row α)) (id : String) :
    Except Thrown (Option μ) :=
  match findRow tbl id with
  | none => .ok none
  | some r => (mapToModel r).map some

/-- `softDelete(id)`: `UPDATE … SET deletedAt = now, updatedAt = now WHERE id = id
RETURNING`; throws `Record with id … not found` when no row matched. -/
def softDelete (tbl : List (Row α)) (id : String) (now : Nat) :
    Except Thrown (List (Row α)) :=
  let updated := tbl.map fun r =>
    if r.id == id then { r with deletedAt := some now, updatedAt := now } else r
  if tbl.any (fun r => r.id == id) then .ok updated
  else .error (.jsError ("Record with id " ++ id ++ " not found"))

/-- `hardDelete(id)`: `DELETE FROM … WHERE id = id` with no affected-row check —
it raises no error when zero rows match. -/
def hardDelete (tbl : List (Row α)) (id : String) : List (Row α) :=
  tbl.filter (fun r => !(r.id == id))

/-! ## Expense domain

`Expense` (src/modules/expense/models/expense.model.ts) and its repository and
use case.  The expenses table has no `deletedAt` column, so its rows are
modelled directly. -/

inductive ExpenseCategory where
  | essentials
  | leisure
  | investments
  | knowledge
  | emergency
deriving DecidableEq, Repr

/-- One row of the `expenses` table (src/…/schemas/expenses.schema.ts):
id, date, description, amount, category, isRecurring, userId, createdAt,
updatedAt.  The `real` amount column is modelled as `Int`; none of the
verified operations do arithmetic on it. -/
structure ExpenseRow where
  id : String
  date : String
  description : String
  amount : Int
  category : ExpenseCategory
  isRecurring : Bool
  userId : String
  createdAt : Nat
  updatedAt : Nat
deriving DecidableEq, Repr

/-- The `Expense` domain model: the same own fields as a row (its class
methods live on the prototype and are not data). -/
structure Expense where
  id : String
  date : String
  description : String
  amount : Int
  category : ExpenseCategory
  isRecurring : Bool
  userId : String
  createdAt : Nat
  updatedAt : Nat
deriving DecidableEq, Repr

/-- `Expense.createFrom(data)`: copy every column of the row into the model. -/
def Expense.createFrom (r : ExpenseRow) : Expense :=
  { id := r.id, date := r.date, description := r.description, amount := r.amount
    category := r.category, isRecurring := r.isRecurring, userId := r.userId
    createdAt := r.createdAt, updatedAt := r.updatedAt }

/-- `updateAmount` returns a fresh copy with the new amount and a refreshed
`updatedAt` (`new Date()` modelled by the `now` argument); `this` is untouched. -/
def Expense.updateAmount (e : Expense) (newAmount : Int) (now : Nat) : Expense :=
  { e with amount := newAmount, updatedAt := now }

/-- `updateCategory`: fresh copy with the new category. -/
def Expense.updateCategory (e : Expense) (newCategory : ExpenseCategory) (now : Nat) : Expense :=
  { e with category := newCategory, updatedAt := now }

/-- `updateDescription`: fresh copy with the new description. -/
def Expense.updateDescription (e : Expense) (newDescription : String) (now : Nat) : Expense :=
  { e with description := newDescription, updatedAt := now }

/-- `ExpenseRepository.mapToModel` as written in the source
(src/modules/expense/repositories/expense.repository.ts):

`protected mapToModel(data) { throw Expense.createFrom(data) }`

— it **throws** the constructed model instead of returning it. -/
def expenseMapToModel (r : ExpenseRow) : Except Thrown Expense :=
  .error (.thrownModel (Expense.createFrom r).id)

/-- `ExpenseRepository.findById` = the inherited generic `findById` with the
expense `mapToModel`. -/
def expenseFindById (tbl : List ExpenseRow) (id : String) : Except Thrown (Option Expense) :=
  match tbl.find? (fun r => r.id == id) with
  | none => .ok none
  | some r => (expenseMapToModel r).map some

/-- The column assignments of the generic `update`'s
`set({...data, updatedAt: new Date()})` when the use case passes `data =
expenseToUpdate` (an `Expense` instance, spread over all own fields) or
`undefined` (spreading `undefined` contributes nothing, so only `updatedAt`
is written). -/
def applyExpenseSet (r : ExpenseRow) (data : Option Expense) (now : Nat) : ExpenseRow :=
  match data with
  | none => { r with updatedAt := now }
  | some e =>
      { id := e.id, date := e.date, description := e.description, amount := e.amount
        category := e.category, isRecurring := e.isRecurring, userId := e.userId
        createdAt := e.createdAt, updatedAt := now }

/-- The inherited generic `update` on the expenses table.  The `UPDATE …
RETURNING` runs first (its effect on the table persists even if mapping then
throws), then `[result]` is taken: no matched row throws `Record with id …
not found`, a matched row goes through `mapToModel` — which throws the model.
The pair carries the table state after the statement. -/
def expenseUpdate (tbl : List ExpenseRow) (id : String) (data : Option Expense) (now : Nat) :
    Except Thrown Expense × List ExpenseRow :=
  match tbl.find? (fun r => r.id == id) with
  | none => (.error (.jsError ("Record with id " ++ id ++ " not found")), tbl)
  | some r₀ =>
      let newTbl := tbl.map fun r => if r.id == id then applyExpenseSet r data now else r
      (expenseMapToModel (applyExpenseSet r₀ data now), newTbl)

/-- The inherited generic `hardDelete` on the expenses table. -/
def expenseHardDelete (tbl : List ExpenseRow) (id : String) : List ExpenseRow :=
  tbl.filter (fun r => !(r.id == id))

/-- The `{success, data?, error?}` envelope returned by every `ExpenseUseCase`
method. -/
structure UseCaseResult (α : Type) where
  success : Bool
  data : Option α
  error : Option String
deriving DecidableEq, Repr

/-- `UpdateExpenseInput`: each field independently optional. -/
structure UpdateExpenseInput where
  description : Option String
  amount : Option Int
  category : Option ExpenseCategory
  date : Option String
  isRecurring : Option Bool
deriving DecidableEq, Repr

/-- `ExpenseUseCase.getExpense(expenseId)`: `findById`, then
`if (!expense) return {success: false, error: ''}`; a thrown value is caught
and collapsed (`AppError` message passes through, anything else becomes
`'Failed to get expense'`). -/
def getExpense (tbl : List ExpenseRow) (expenseId : String) : UseCaseResult Expense :=
  match expenseFindById tbl expenseId with
  | .ok none => { success := false, data := none, error := some "" }
  | .ok (some e) => { success := true, data := some e, error := none }
  | .error t =>
      { success := false, data := none, error := some (collapseError "Failed to get expense" t) }

/-- `ExpenseUseCase.updateExpense(expenseId, input)`.  Mirrors the source
line by line: destructure `getExpense`'s result; `if (error)` short-circuits
(JS truthiness — the empty string does not); the three
`expenseToUpdate?.updateDescription/updateAmount/updateCategory` calls are
evaluated and their returned copies **discarded**, exactly as in the source
(no branch exists for `date` or `isRecurring` at all); then
`expenseRepository.update(expenseId, expenseToUpdate!)` runs and the catch
collapses non-`AppError` throws to `'Failed to update expense'`. -/
def updateExpense (tbl : List ExpenseRow) (expenseId : String) (input : UpdateExpenseInput)
    (now : Nat) : UseCaseResult Expense × List ExpenseRow :=
  let g := getExpense tbl expenseId
  if jsTruthyStr g.error then
    ({ success := false, data := none, error := g.error }, tbl)
  else
    let expenseToUpdate := g.data
    let _ := input.description.map fun d => expenseToUpdate.map fun e => e.updateDescription d now
    let _ := input.amount.map fun a => expenseToUpdate.map fun e => e.updateAmount a now
    let _ := input.category.map fun c => expenseToUpdate.map fun e => e.updateCategory c now
    match expenseUpdate tbl expenseId expenseToUpdate now with
    | (.ok e, tbl') => ({ success := true, data := some e, error := none }, tbl')
    | (.error t, tbl') =>
        ({ success := false, data := none
           error := some (collapseError "Failed to update expense" t) }, tbl')

/-- `ExpenseUseCase.deleteExpense(expenseId, userId)`: the body only runs
`hardDelete(expenseId)` — `userId` is never consulted — and returns
`{success: true}`; the storage delete raises no error of its own (zero
affected rows included), so the catch branch is unreachable absent an
infrastructure fault, which the model leaves out. -/
def deleteExpense (tbl : List ExpenseRow) (expenseId : String) (userId : String) :
    UseCaseResult Unit × List ExpenseRow :=
  ({ success := true, data := none, error := none }, expenseHardDelete tbl expenseId)

/-! ## AuthService (`checkAuthAndGetMessage`, src/modules/auth/services/auth.service.ts)

The repository lookup (`authRepository.getUserSession(discordId)`, the
accounts↔users join keyed on the Discord account id and provider `'discord'`)
is an awaited storage call; its outcome is a parameter of the embedding:
`.ok none` = no linked account, `.ok (some s)` = a linked session,
`.error t` = an infrastructure throw. -/

structure AuthSession where
  userId : String
  userName : Option String
deriving DecidableEq, Repr

structure AuthCheckResult where
  isAuthenticated : Bool
  userId : Option String
  userName : Option String
  message : Option String
deriving DecidableEq, Repr

/-- `getLoginUrl()`: `process.env.BETTER_AUTH_URL || 'http://localhost:3333'`
followed by `/login/discord`. -/
def getLoginUrl (betterAuthUrl : Option String) : String :=
  jsOrString betterAuthUrl "http://localhost:3333" ++ "/login/discord"

/-- Template text before the login URL in the login-prompt message. -/
def loginPromptPre : String :=
  "🔐 **Você precisa fazer login primeiro!**\n\nPara usar o bot, faça login com sua conta Discord:\n👉 \t[REALIZAR LOGIN]("

/-- Template text after the login URL in the login-prompt message. -/
def loginPromptPost : String :=
  ")\n\nApós o login, volte aqui e envie seu comando novamente."

/-- The full not-authenticated prompt, with the constructed login URL spliced in. -/
def loginPromptMessage (betterAuthUrl : Option String) : String :=
  loginPromptPre ++ getLoginUrl betterAuthUrl ++ loginPromptPost

/-- The generic user message produced by the catch branch. -/
def authCheckFailedMessage : String := "❌ Erro ao verificar autenticação. Tente novamente."

/-- `AuthService.checkAuthAndGetMessage(discordId)`: a total function of the
lookup outcome — the not-authenticated case is a normal return, and the catch
branch turns a thrown infrastructure error into the generic failure result,
so no exception reaches the caller. -/
def checkAuthAndGetMessage (betterAuthUrl : Option String)
    (lookup : Except Thrown (Option AuthSession)) : AuthCheckResult :=
  match lookup with
  | .ok none =>
      { isAuthenticated := false, userId := none, userName := none
        message := some (loginPromptMessage betterAuthUrl) }
  | .ok (some s) =>
      { isAuthenticated := true, userId := some s.userId
        userName := some (jsOrString s.userName "Usuário")
        message := some ("✅ Autenticado como " ++ jsOrString s.userName "Usuário") }
  | .error _ =>
      { isAuthenticated := false, userId := none, userName := none
        message := some authCheckFailedMessage }

/-! ## Message dispatch (`DiscordBotHandlerService.handleMessage`)

Classification only: the downstream use-case calls are represented by the
`Route` the handler commits to. -/

/-- JS `String.prototype.toLowerCase` (character-wise lowering; the inputs of
interest are ASCII filenames). -/
def jsToLower (s : String) : String := String.mk (s.data.map Char.toLower)

/-- JS `String.prototype.endsWith`. -/
def jsEndsWith (s suffix : String) : Bool := suffix.data.isSuffixOf s.data

/-- JS `String.prototype.startsWith`. -/
def jsStartsWith (s pre : String) : Bool := pre.data.isPrefixOf s.data

/-- JS `String.prototype.trim`: strip leading and trailing whitespace. -/
def jsTrim (s : String) : String :=
  String.mk (((s.data.dropWhile Char.isWhitespace).reverse.dropWhile Char.isWhitespace).reverse)

/-- `AudioProcessingService.audioExtensions`. -/
def audioExtensions : List String :=
  [".mp3", ".wav", ".ogg", ".m4a", ".aac", ".opus", ".webm"]

/-- `isAudioFile(filename)`: `filename.toLowerCase().endsWith(ext)` for some
known extension. -/
def isAudioFile (filename : String) : Bool :=
  audioExtensions.any (fun ext => jsEndsWith (jsToLower filename) ext)

structure Attachment where
  name : Option String
  url : String
deriving DecidableEq, Repr

/-- The guard `attachment.name && isAudioFile(attachment.name)` (a missing or
empty name is falsy and short-circuits). -/
def isAudioAttachment (a : Attachment) : Bool :=
  match a.name with
  | none => false
  | some n => if n == "" then false else isAudioFile n

/-- `CommandHandlerService.isCommand(content)`. -/
def isCommand (content : String) : Bool :=
  jsStartsWith content "/" || jsStartsWith content "!"

/-- The fields of an inbound `messageCreate` event the handler reads:
`message.author.bot`, `message.guild !== null`, the attachment collection,
and `message.content`. -/
structure InboundMessage where
  authorIsBot : Bool
  inGuild : Bool
  attachments : List Attachment
  content : String
deriving DecidableEq, Repr

/-- Where `handleMessage` routes an event. -/
inductive Route where
  | dropped
  | audioBranch (audioUrl : String)
  | commandBranch (content : String)
  | textBranch (content : String)
  | noop
deriving DecidableEq, Repr

/-- `DiscordBotHandlerService.handleMessage`: ignore bot authors; ignore guild
messages; take the first attachment passing the audio guard and return after
the audio branch (`// Process only audio, not text`); otherwise dispatch the
trimmed content to the command or text branch when non-empty, else do nothing.
(The source's `attachments.size > 0` test is subsumed by iterating the list.) -/
def handleMessage (m : InboundMessage) : Route :=
  if m.authorIsBot then .dropped
  else if m.inGuild then .dropped
  else
    match m.attachments.find? isAudioAttachment with
    | some a => .audioBranch a.url
    | none =>
        let t := jsTrim m.content
        if t != "" then
          if isCommand t then .commandBranch t else .textBranch t
        else .noop

/-! ## Reply delivery (`MessageProcessingService.sendDirectMessage`)

The reply text is a `List Char` (JS string).  The outcome of the i-th
`message.author.send` attempt is the parameter `dmOk i`; the channel-reply
fallback (`message.reply`) is taken to succeed — its own failure would escape
`sendDirectMessage` and is outside this claim. -/

inductive SendEvent where
  | dm (content : List Char)
  | channelReply (content : List Char)
deriving DecidableEq, Repr

/-- The chunking performed by the source's global regex match on
`[\s\S]` repeated 1 to 2000 times, with `|| []` for the no-match (empty
string) case: consecutive maximal runs of at most 2000 characters. -/
def chunkChars (cs : List Char) : List (List Char) :=
  if h : cs = [] then []
  else cs.take 2000 :: chunkChars (cs.drop 2000)
termination_by cs.length
decreasing_by
  simp only [List.length_drop]
  have : 0 < cs.length := List.length_pos.mpr h
  omega

/-- The notice prefixed to the single-message channel fallback
(`🔒 Não consegui te enviar uma mensagem privada. …`). -/
def dmFailNotice : List Char :=
  "🔒 Não consegui te enviar uma mensagem privada. Aqui está sua resposta:\n\n".data

/-- `sendDirectMessage(message, content)`.  Over the 2000-character limit the
chunks are DM-sent sequentially inside one `try`; the first failing send
aborts the loop and the `catch` re-sends **all** chunks as channel replies
(without the notice).  At or under the limit: one DM, falling back to a single
prefixed channel reply. -/
def sendDirectMessage (dmOk : Nat → Bool) (content : List Char) : List SendEvent :=
  if 2000 < content.length then
    let chunks := chunkChars content
    match (List.range chunks.length).find? (fun i => !dmOk i) with
    | none => chunks.map SendEvent.dm
    | some k => (chunks.take k).map SendEvent.dm ++ chunks.map SendEvent.channelReply
  else
    if dmOk 0 then [SendEvent.dm content]
    else [SendEvent.channelReply (dmFailNotice ++ content)]

/-- The delivery policy in the words of the claim (each chunk independently
attempted via DM first, falling back to a channel reply for that chunk on
failure) — stated from the spec for comparison with `sendDirectMessage`. -/
def specPerChunkDelivery (dmOk : Nat → Bool) (content : List Char) : List SendEvent :=
  if 2000 < content.length then
    (chunkChars content).enum.map fun p =>
      if dmOk p.1 then SendEvent.dm p.2 else SendEvent.channelReply p.2
  else
    if dmOk 0 then [SendEvent.dm content]
    else [SendEvent.channelReply content]

/-! ## HTTP auth bridge (`server.route({url: '/api/auth/*'})`, src/web-server.ts) -/

/-- A Fastify header value: `string | string[]` (an absent/`undefined` header
simply does not appear in the list). -/
inductive HeaderValue where
  | single (s : String)
  | multi (xs : List String)
deriving DecidableEq, Repr

/-- The `if (value)` / `Array.isArray(value)` conversion: an empty string is
falsy and skipped; an array — empty included, arrays are truthy — is joined
with `", "`. -/
def convertHeaderValue : HeaderValue → Option String
  | .single s => if s == "" then none else some s
  | .multi xs => some (String.intercalate ", " xs)

/-- The inbound Fastify request as the bridge reads it; `body` is the parsed
body of type `β` (`none` = `undefined`), serialized by the ambient
`JSON.stringify`, passed in as `stringify`. -/
structure FastifyRequest (β : Type) where
  url : String
  method : String
  host : String
  headers : List (String × HeaderValue)
  body : Option β

/-- The Fetch-API `Request` handed to `auth.handler`. -/
structure WebRequest where
  url : String
  method : String
  headers : List (String × String)
  body : Option String
deriving DecidableEq, Repr

/-- Constructing the `Request`: `new URL(request.url, http://host)` (the
route's path-style URLs resolve to base ++ path), the converted headers, and
`request.body ? JSON.stringify(request.body) : undefined`. -/
def buildWebRequest (stringify : β → String) (req : FastifyRequest β) : WebRequest :=
  { url := "http://" ++ req.host ++ req.url
    method := req.method
    headers := req.headers.filterMap fun kv => (convertHeaderValue kv.2).map fun v => (kv.1, v)
    body := req.body.map stringify }

/-- The handler's Fetch-API `Response` as the bridge reads it. -/
structure HandlerResponse where
  status : Nat
  headers : List (String × String)
  body : Option String
deriving DecidableEq, Repr

/-- `Headers.get(name)`: case-insensitive lookup (first match). -/
def headerGet (hs : List (String × String)) (k : String) : Option String :=
  (hs.find? (fun kv => kv.1.toLower == k.toLower)).map (fun kv => kv.2)

/-- JS `s.includes(pat)`. -/
def jsIncludes (s pat : String) : Bool :=
  s.data.tails.any (fun t => pat.data.isPrefixOf t)

/-- The outbound reply body: the response text, `null`, or the fixed
`error: 'Internal authentication error', code: 'AUTH_FAILURE'` object the
catch branch sends. -/
inductive ReplyBody where
  | text (s : String)
  | nullBody
  | authFailureJson
deriving DecidableEq, Repr

structure OutboundReply where
  status : Nat
  headers : List (String × String)
  contentType : Option String
  body : ReplyBody
deriving DecidableEq, Repr

/-- `reply.type` selection: `application/json` when the response
content-type includes it, else the content-type itself when truthy, else
nothing. -/
def mirrorContentType (resp : HandlerResponse) : Option String :=
  match headerGet resp.headers "content-type" with
  | some c =>
      if jsIncludes c "application/json" then some "application/json"
      else if c == "" then none else some c
  | none => none

/-- The `/api/auth/*` route handler.  The whole body sits in one `try`:
build the `Request`, run `auth.handler` (the only throwing step in the
model), mirror status, mirror each header under its own non-fatal `try`
(`headerSetOk` says which `reply.header` calls succeed), and mirror the body
(`response.text()` when a body exists, `null` otherwise).  Any throw yields
the fixed 500 reply — nothing propagates past the request boundary. -/
def authRouteHandler (handler : WebRequest → Except Thrown HandlerResponse)
    (headerSetOk : String → String → Bool) (stringify : β → String)
    (req : FastifyRequest β) : OutboundReply :=
  match handler (buildWebRequest stringify req) with
  | .error _ =>
      { status := 500, headers := [], contentType := none, body := .authFailureJson }
  | .ok resp =>
      { status := resp.status
        headers := resp.headers.filter fun kv => headerSetOk kv.1 kv.2
        contentType := mirrorContentType resp
        body :=
          match resp.body with
          | some b => .text b
          | none => .nullBody }

/-! ## Concrete inputs used by counterexamples and witnesses -/

/-- A soft-deleted row of a soft-delete-supporting table. -/
def softDeletedRow : Row Unit :=
  { id := "r1", createdAt := 1, updatedAt := 5, deletedAt := some 5, payload := () }

/-- The same row before `softDelete`. -/
def liveRow : Row Unit :=
  { id := "r1", createdAt := 1, updatedAt := 1, deletedAt := none, payload := () }

/-- Pagination params with every field absent. -/
def emptyParams : PaginationParams :=
  { page := none, limit := none, orderBy := none, orderDirection := none }

/-- A stored expense whose description is "old". -/
def storedExpense : ExpenseRow :=
  { id := "e1", date := "2024-01-01", description := "old", amount := 80
    category := .essentials, isRecurring := false, userId := "u1"
    createdAt := 1, updatedAt := 1 }

/-- An update input carrying only a new description. -/
def newDescriptionInput : UpdateExpenseInput :=
  { description := some "new", amount := none, category := none
    date := none, isRecurring := none }

/-- An update input carrying no fields. -/
def emptyUpdateInput : UpdateExpenseInput :=
  { description := none, amount := none, category := none
    date := none, isRecurring := none }

/-- A 2001-character reply text (forces chunking). -/
def longReply : List Char := List.replicate 2001 'a'

/-- A DM-send oracle where only the first send succeeds. -/
def dmOkFirstOnly : Nat → Bool := fun i => i == 0

/-- A concrete OAuth-handler response (JSON body). -/
def bridgeResp : HandlerResponse :=
  { status := 200, headers := [("content-type", "application/json")], body := some "session-json" }

/-- A handler that answers every request with `bridgeResp`. -/
def bridgeHandler : WebRequest → Except Thrown HandlerResponse := fun _ => .ok bridgeResp

/-- A concrete inbound request with an array-valued header, an empty-string
header, and a present body. -/
def bridgeReq : FastifyRequest Unit :=
  { url := "/api/auth/session", method := "GET", host := "localhost:3333"
    headers := [("accept", .multi ["application/json", "text/html"]), ("x-empty", .single "")]
    body := some () }

/-- Serialization of the witness body. -/
def bridgeStringify : Unit → String := fun _ => "serialized-body"

/-! ## Helper lemmas -/

theorem insertSortedBy_perm (le : β → β → Bool) (a : β) (l : List β) :
    List.Perm (insertSortedBy le a l) (a :: l) := by
  induction l with
  | nil => rfl
  | cons b bs ih =>
      by_cases h : le a b = true
      · simp [insertSortedBy, h]
      · simp only [insertSortedBy, h, if_false, Bool.false_eq_true]
        exact (ih.cons b).trans (List.Perm.swap a b bs)

theorem sortBy_perm (le : β → β → Bool) (l : List β) : List.Perm (sortBy le l) l := by
  induction l with
  | nil => rfl
  | cons a as ih => exact (insertSortedBy_perm le a (sortBy le as)).trans (ih.cons a)

theorem mem_sortBy {le : β → β → Bool} {l : List β} {x : β} :
    x ∈ sortBy le l ↔ x ∈ l :=
  (sortBy_perm le l).mem_iff

theorem le_jsCeilDiv_mul (t l : Nat) (hl : 0 < l) : t ≤ jsCeilDiv t l * l := by
  have h1 := Nat.div_add_mod (t + l - 1) l
  have h2 := Nat.mod_lt (t + l - 1) hl
  have h3 : jsCeilDiv t l * l = l * ((t + l - 1) / l) := by
    unfold jsCeilDiv; exact Nat.mul_comm _ _
  rw [h3]
  omega

theorem jsCeilDiv_le_of_le_mul (t l n : Nat) (hl : 0 < l) (h : t ≤ n * l) :
    jsCeilDiv t l ≤ n := by
  unfold jsCeilDiv
  rw [Nat.div_le_iff_le_mul_add_pred hl]
  rw [Nat.mul_comm] at h
  omega

/-- The mapped row of `softDelete`'s `UPDATE` keeps every id, and the first
id-match of the updated table carries the fresh `deletedAt`. -/
theorem findRow_softDelete_updated {α : Type} (tbl : List (Row α)) (id : String) (now : Nat)
    (h : tbl.any (fun r => r.id == id) = true) :
    ∃ r, findRow (tbl.map fun r =>
        if r.id == id then { r with deletedAt := some now, updatedAt := now } else r) id =
          some r ∧ r.deletedAt = some now := by
  induction tbl with
  | nil => simp at h
  | cons a as ih =>
      by_cases ha : a.id == id
      · refine ⟨{ a with deletedAt := some now, updatedAt := now }, ?_, rfl⟩
        simp [findRow, List.find?, ha]
      · have h' : as.any (fun r => r.id == id) = true := by
          simp only [List.any_cons, ha, Bool.false_or] at h
          exact h
        obtain ⟨r, hr, hrd⟩ := ih h'
        refine ⟨r, ?_, hrd⟩
        simpa [findRow, List.find?, ha] using hr

/-! ## Claims -/

/-- C2 counterexample: a soft-deleted record (produced by `softDelete` on a
soft-delete-supporting table) **does** appear in the result of
`findWithPagination` — the claim that it appears in the result of neither
`findAll` nor `findWithPagination` is false. -/
theorem c2_soft_deleted_row_in_pagination :
    softDelete [liveRow] "r1" 5 = .ok [softDeletedRow] ∧
    softDeletedRow ∈
      (findWithPagination emptyParams none (fun r => r.createdAt) [softDeletedRow]).data := by
  constructor
  · rfl
  · simp [findWithPagination, emptyParams, sortBy, insertSortedBy]

/-- C2 (amended): after `softDelete` succeeds, the record is excluded from
`findAll` for every predicate, and the underlying row still exists — the raw
id lookup (which bypasses the soft-delete filter) returns it with `deletedAt`
set — but `findWithPagination` applies no soft-delete filter: with no
predicate its count covers every row of the table, soft-deleted ones
included. -/
theorem c2_softDelete_amended {α : Type} (tbl tbl' : List (Row α)) (id : String) (now : Nat)
    (h : softDelete tbl id now = .ok tbl') :
    (∀ (p : Option (Row α → Bool)) (r : Row α), r ∈ findAll true p tbl' → r.id ≠ id) ∧
    (∃ r, findRow tbl' id = some r ∧ r.deletedAt = some now) ∧
    (∀ (params : PaginationParams) (key : Row α → Nat),
      (findWithPagination params none key tbl').total = tbl'.length) := by
  have hany : tbl.any (fun r => r.id == id) = true := by
    by_contra hneg
    simp [softDelete, hneg] at h
  have htbl' : tbl' = tbl.map fun r =>
      if r.id == id then { r with deletedAt := some now, updatedAt := now } else r := by
    simp only [softDelete] at h
    rw [if_pos hany] at h
    exact (Except.ok.inj h).symm
  refine ⟨?_, ?_, ?_⟩
  · intro p r hr hid
    have hmem : r ∈ tbl'.filter (fun r =>
        (match p with
          | some q => q r
          | none => true) &&
        (if true then r.deletedAt.isNone else true)) := by
      simpa [findAll, mem_sortBy] using hr
    have hkeep := (List.mem_filter.mp hmem).2
    have hdel : r.deletedAt = none := by
      simp only [if_true, Bool.and_eq_true, Option.isNone_iff_eq_none] at hkeep
      exact hkeep.2
    have hin : r ∈ tbl' := (List.mem_filter.mp hmem).1
    rw [htbl'] at hin
    obtain ⟨r₀, _, hr₀⟩ := List.mem_map.mp hin
    by_cases h₀ : r₀.id == id
    · rw [if_pos h₀] at hr₀
      rw [← hr₀] at hdel
      simp at hdel
    · rw [if_neg h₀] at hr₀
      rw [← hr₀] at hid
      exact absurd (by simpa using hid) (by simpa using h₀)
  · rw [htbl']
    exact findRow_softDelete_updated tbl id now hany
  · intro params key
    simp [findWithPagination]

/-- C2 amended witness: concrete soft-delete-supporting table with one row. -/
theorem c2_softDelete_amended_witness :
    (∀ r, r ∈ findAll true none [softDeletedRow] → r.id ≠ "r1") ∧
    (∃ r, findRow [softDeletedRow] "r1" = some r ∧ r.deletedAt = some 5) := by
  have h : softDelete [liveRow] "r1" 5 = .ok [softDeletedRow] := rfl
  exact ⟨fun r hr => (c2_softDelete_amended [liveRow] [softDeletedRow] "r1" 5 h).1 none r hr,
    (c2_softDelete_amended [liveRow] [softDeletedRow] "r1" 5 h).2.1⟩

/-- C5: for valid params (`limit ≥ 1` after defaulting) and any predicate,
`findWithPagination` returns `page`/`limit` echoing the params with defaults
1 and 8, at most `limit` data rows all matching the predicate, `total` equal
to the count of rows matching the same predicate, and `totalPages` equal to
the ceiling of `total / limit` (characterized as the least `n` with
`total ≤ n * limit`). -/
theorem c5_findWithPagination_invariants {α : Type} (params : PaginationParams)
    (pred : Option (Row α → Bool)) (key : Row α → Nat) (tbl : List (Row α))
    (hl : 1 ≤ params.limit.getD 8) :
    (findWithPagination params pred key tbl).data.length ≤
      (findWithPagination params pred key tbl).limit ∧
    (findWithPagination params pred key tbl).limit = params.limit.getD 8 ∧
    (findWithPagination params pred key tbl).page = params.page.getD 1 ∧
    (params.limit = none → (findWithPagination params pred key tbl).limit = 8) ∧
    (params.page = none → (findWithPagination params pred key tbl).page = 1) ∧
    (findWithPagination params pred key tbl).total =
      (match pred with
        | some p => tbl.filter p
        | none => tbl).length ∧
    (∀ p, pred = some p → ∀ r ∈ (findWithPagination params pred key tbl).data, p r = true) ∧
    (findWithPagination params pred key tbl).total ≤
      (findWithPagination params pred key tbl).totalPages *
        (findWithPagination params pred key tbl).limit ∧
    (∀ n, (findWithPagination params pred key tbl).total ≤
        n * (findWithPagination params pred key tbl).limit →
      (findWithPagination params pred key tbl).totalPages ≤ n) := by
  refine ⟨?_, rfl, rfl, ?_, ?_, rfl, ?_, ?_, ?_⟩
  · simp [findWithPagination]
  · intro h; simp [findWithPagination, h]
  · intro h; simp [findWithPagination, h]
  · intro p hp r hr
    rw [hp] at hr
    simp only [findWithPagination] at hr
    have hr' := List.mem_of_mem_take hr
    have hr'' := List.mem_of_mem_drop hr'
    have hmem : r ∈ tbl.filter p := by
      cases hdir : params.orderDirection.getD OrderDirection.desc <;>
        · simp only [hdir] at hr''
          simpa [mem_sortBy] using hr''
    exact (List.mem_filter.mp hmem).2
  · exact le_jsCeilDiv_mul _ _ hl
  · intro n hn
    exact jsCeilDiv_le_of_le_mul _ _ n hl hn

/-- C5 witness: default params on a one-row table. -/
theorem c5_findWithPagination_witness :
    1 ≤ emptyParams.limit.getD 8 ∧
    (findWithPagination emptyParams none (fun r => r.createdAt) [liveRow]).data.length ≤
      (findWithPagination emptyParams none (fun r => r.createdAt) [liveRow]).limit ∧
    (findWithPagination emptyParams none (fun r => r.createdAt) [liveRow]).limit = 8 ∧
    (findWithPagination emptyParams none (fun r => r.createdAt) [liveRow]).page = 1 := by
  have h := c5_findWithPagination_invariants emptyParams none
    (fun r => r.createdAt) [liveRow] (by decide)
  exact ⟨by decide, h.1, h.2.2.2.1 rfl, h.2.2.2.2.1 rfl⟩

/-- C1: evaluating `updateExpense` at a stored expense (description "old")
with an input carrying a new description.  Because `mapToModel` throws the
model, `getExpense` fails with `'Failed to get expense'`, `updateExpense`
short-circuits on that (truthy) error, and the stored snapshot is left
completely unchanged — the field present in the input never receives its new
value, contradicting the claim's partial-update semantics. -/
theorem c1_updateExpense_persists_nothing :
    updateExpense [storedExpense] "e1" newDescriptionInput 10 =
      ({ success := false, data := none, error := some "Failed to get expense" },
        [storedExpense]) ∧
    getExpense [storedExpense] "e1" =
      { success := false, data := none, error := some "Failed to get expense" } := by
  constructor <;> rfl

/-- C4: evaluating the expense repository's `findById`.  On a table containing
a row with the requested id it **throws** the constructed model
(`mapToModel` is `throw Expense.createFrom(data)`), instead of returning the
mapped entity as the claim states; the absent-id case does return `null`
without throwing. -/
theorem c4_expense_findById_throws :
    expenseFindById [storedExpense] "e1" = .error (.thrownModel "e1") ∧
    expenseFindById [storedExpense] "missing" = .ok none := by
  constructor <;> rfl

/-- C9: `deleteExpense(expenseId, userId)` always reports `{success: true}`,
its outcome is independent of `userId` (no ownership check), every row with
the target id is removed — a row owned by a different user included — rows
with other ids survive, and when no row has the id the table is unchanged
while the result is still `{success: true}`. -/
theorem c9_deleteExpense_no_ownership_check (tbl : List ExpenseRow) (eid uid : String) :
    (deleteExpense tbl eid uid).1 = { success := true, data := none, error := none } ∧
    (∀ uid', deleteExpense tbl eid uid' = deleteExpense tbl eid uid) ∧
    (∀ r, r ∈ tbl → r.id = eid → r ∉ (deleteExpense tbl eid uid).2) ∧
    (∀ r, r ∈ tbl → r.id ≠ eid → r ∈ (deleteExpense tbl eid uid).2) ∧
    ((∀ r ∈ tbl, r.id ≠ eid) →
      deleteExpense tbl eid uid = ({ success := true, data := none, error := none }, tbl)) := by
  refine ⟨rfl, fun uid' => rfl, ?_, ?_, ?_⟩
  · intro r hr hid hmem
    have := (List.mem_filter.mp hmem).2
    simp [hid] at this
  · intro r hr hne
    exact List.mem_filter.mpr ⟨hr, by simp [hne]⟩
  · intro hall
    have : expenseHardDelete tbl eid = tbl := by
      apply List.filter_eq_self.mpr
      intro r hr
      simp [hall r hr]
    simp [deleteExpense, this]

/-- C9 witness: the stored expense belongs to "u1", yet `deleteExpense` by a
different `userId` succeeds and removes it; on an id with no row, the table
survives and success is still reported. -/
theorem c9_deleteExpense_witness :
    (deleteExpense [storedExpense] "e1" "someone-else").1 =
      { success := true, data := none, error := none } ∧
    storedExpense ∉ (deleteExpense [storedExpense] "e1" "someone-else").2 ∧
    deleteExpense [storedExpense] "missing" "u1" =
      ({ success := true, data := none, error := none }, [storedExpense]) := by
  have h := c9_deleteExpense_no_ownership_check [storedExpense] "e1" "someone-else"
  have h' := c9_deleteExpense_no_ownership_check [storedExpense] "missing" "u1"
  exact ⟨h.1, h.2.2.1 storedExpense (by simp) rfl,
    h'.2.2.2.2 (by intro r hr; simp at hr; rw [hr]; decide)⟩

/-- C10: for an `expenseId` with no stored row, `getExpense` returns
`{success: false, error: ''}` (the empty-string error), and `updateExpense`
does not short-circuit on it — the empty string is falsy — but proceeds to
the repository `update`, whose `Record with id … not found` throw is not an
`AppError` and therefore collapses to the generic
`'Failed to update expense'`; the table is untouched. -/
theorem c10_missing_expense_update_path (tbl : List ExpenseRow) (eid : String)
    (input : UpdateExpenseInput) (now : Nat)
    (h : tbl.find? (fun r => r.id == eid) = none) :
    getExpense tbl eid = { success := false, data := none, error := some "" } ∧
    updateExpense tbl eid input now =
      ({ success := false, data := none, error := some "Failed to update expense" }, tbl) := by
  have hfb : expenseFindById tbl eid = .ok none := by
    simp [expenseFindById, h]
  have hg : getExpense tbl eid = { success := false, data := none, error := some "" } := by
    simp [getExpense, hfb]
  refine ⟨hg, ?_⟩
  simp [updateExpense, hg, jsTruthyStr, expenseUpdate, h, collapseError]

/-- C10 witness: the empty table and id "e1". -/
theorem c10_missing_expense_witness :
    ([] : List ExpenseRow).find? (fun r => r.id == "e1") = none ∧
    getExpense [] "e1" = { success := false, data := none, error := some "" } ∧
    updateExpense [] "e1" emptyUpdateInput 0 =
      ({ success := false, data := none, error := some "Failed to update expense" },
        ([] : List ExpenseRow)) := by
  exact ⟨rfl, (c10_missing_expense_update_path [] "e1" emptyUpdateInput 0 rfl).1,
    (c10_missing_expense_update_path [] "e1" emptyUpdateInput 0 rfl).2⟩

/-- C3: for a lookup finding no linked account, `checkAuthAndGetMessage`
returns a (non-thrown) result with `isAuthenticated = false` whose message
contains the constructed login URL; a thrown infrastructure failure is
likewise returned — not re-thrown — as the generic authentication-failure
message.  Totality of `checkAuthAndGetMessage` is the never-throws contract. -/
theorem c3_checkAuthAndGetMessage_contract (url : Option String) (t : Thrown) :
    (checkAuthAndGetMessage url (.ok none)).isAuthenticated = false ∧
    (∃ pre post, (checkAuthAndGetMessage url (.ok none)).message =
        some (pre ++ getLoginUrl url ++ post)) ∧
    checkAuthAndGetMessage url (.error t) =
      { isAuthenticated := false, userId := none, userName := none
        message := some authCheckFailedMessage } :=
  ⟨rfl, ⟨loginPromptPre, loginPromptPost, rfl⟩, rfl⟩

/-- C7: `handleMessage` drops bot-authored and guild messages; with an
attachment passing the audio-filename guard it takes the audio branch
whatever the text content is (so never the text branch); otherwise a
non-empty trimmed content goes to the command branch when prefixed `/` or
`!` and to the text branch else, and empty content is a no-op. -/
theorem c7_handleMessage_classification (m : InboundMessage) :
    (m.authorIsBot = true → handleMessage m = .dropped) ∧
    (m.inGuild = true → handleMessage m = .dropped) ∧
    (m.authorIsBot = false → m.inGuild = false →
      (∃ a ∈ m.attachments, isAudioAttachment a = true) →
      ∀ c, ∃ url, handleMessage { m with content := c } = .audioBranch url) ∧
    (m.authorIsBot = false → m.inGuild = false →
      (∀ a ∈ m.attachments, isAudioAttachment a = false) →
      jsTrim m.content ≠ "" →
      handleMessage m =
        if isCommand (jsTrim m.content) then .commandBranch (jsTrim m.content)
        else .textBranch (jsTrim m.content)) ∧
    (m.authorIsBot = false → m.inGuild = false →
      (∀ a ∈ m.attachments, isAudioAttachment a = false) →
      m.content = "" → handleMessage m = .noop) := by
  refine ⟨?_, ?_, ?_, ?_, ?_⟩
  · intro hb
    simp [handleMessage, hb]
  · intro hg
    by_cases hb : m.authorIsBot <;> simp [handleMessage, hb, hg]
  · intro hb hg hex c
    have hsome : (m.attachments.find? isAudioAttachment).isSome := by
      rw [List.find?_isSome]
      exact hex
    obtain ⟨a, ha⟩ := Option.isSome_iff_exists.mp hsome
    exact ⟨a.url, by simp [handleMessage, hb, hg, ha]⟩
  · intro hb hg hnone ht
    have hfind : m.attachments.find? isAudioAttachment = none :=
      List.find?_eq_none.mpr (fun a ha => by simp [hnone a ha])
    simp only [handleMessage, hb, hg, hfind, if_false, Bool.false_eq_true]
    rw [if_pos (by simpa using ht)]
  · intro hb hg hnone hc
    have hfind : m.attachments.find? isAudioAttachment = none :=
      List.find?_eq_none.mpr (fun a ha => by simp [hnone a ha])
    have htrim : jsTrim m.content = "" := by rw [hc]; rfl
    simp [handleMessage, hb, hg, hfind, htrim]

/-- C7 witness: a DM with an `audio.mp3` attachment is routed to the audio
branch even with non-empty text content; a bot message is dropped; a plain
text DM goes to the text branch. -/
theorem c7_handleMessage_witness :
    (∃ url, handleMessage
        { authorIsBot := false, inGuild := false
          attachments := [{ name := some "audio.mp3", url := "cdn/a" }]
          content := "Gastei R$ 80 no supermercado" } = .audioBranch url) ∧
    handleMessage
        { authorIsBot := true, inGuild := false, attachments := [], content := "oi" } =
      .dropped ∧
    handleMessage
        { authorIsBot := false, inGuild := false, attachments := []
          content := "Gastei R$ 80 no supermercado" } = .textBranch "Gastei R$ 80 no supermercado" := by
  refine ⟨?_, ?_, ?_⟩
  · exact (c7_handleMessage_classification
      { authorIsBot := false, inGuild := false
        attachments := [{ name := some "audio.mp3", url := "cdn/a" }]
        content := "Gastei R$ 80 no supermercado" }).2.2.1 rfl rfl
      ⟨{ name := some "audio.mp3", url := "cdn/a" }, by simp, by decide⟩
      "Gastei R$ 80 no supermercado"
  · exact (c7_handleMessage_classification
      { authorIsBot := true, inGuild := false, attachments := [], content := "oi" }).1 rfl
  · have h := (c7_handleMessage_classification
      { authorIsBot := false, inGuild := false, attachments := []
        content := "Gastei R$ 80 no supermercado" }).2.2.2.1 rfl rfl
      (by intro a ha; simp at ha) (by decide)
    rw [h]
    decide

/-- Unfolding `chunkChars` on the empty list. -/
theorem chunkChars_eq_nil : chunkChars [] = [] := by
  simp [chunkChars]

/-- Unfolding `chunkChars` on a non-empty list. -/
theorem chunkChars_eq_cons (cs : List Char) (h : cs ≠ []) :
    chunkChars cs = cs.take 2000 :: chunkChars (cs.drop 2000) := by
  rw [chunkChars]
  simp [h]

/-- Every chunk has at most 2000 characters. -/
theorem chunkChars_length_le (cs : List Char) : ∀ c ∈ chunkChars cs, c.length ≤ 2000 := by
  by_cases h : cs = []
  · subst h
    simp [chunkChars_eq_nil]
  · rw [chunkChars_eq_cons cs h]
    intro c hc
    rcases List.mem_cons.mp hc with rfl | hc'
    · rw [List.length_take]
      exact Nat.min_le_left _ _
    · exact chunkChars_length_le (cs.drop 2000) c hc'
termination_by cs.length
decreasing_by
  simp only [List.length_drop]
  have : 0 < cs.length := List.length_pos.mpr h
  omega

/-- Concatenating the chunks in order restores the original text. -/
theorem chunkChars_flatten (cs : List Char) : (chunkChars cs).flatten = cs := by
  by_cases h : cs = []
  · subst h
    simp [chunkChars_eq_nil]
  · rw [chunkChars_eq_cons cs h, List.flatten_cons,
      chunkChars_flatten (cs.drop 2000), List.take_append_drop]
termination_by cs.length
decreasing_by
  simp only [List.length_drop]
  have : 0 < cs.length := List.length_pos.mpr h
  omega

/-- `find?` over `range n` returns the first index satisfying the predicate. -/
theorem range_find?_eq_some {p : Nat → Bool} {k : Nat} (hpk : p k = true)
    (hlt : ∀ i < k, p i = false) : ∀ {n : Nat}, k < n → (List.range n).find? p = some k := by
  intro n
  induction n with
  | zero => omega
  | succ m ih =>
      intro hk
      rw [List.range_succ, List.find?_append]
      by_cases hkm : k < m
      · rw [ih hkm]
        rfl
      · have hkeq : k = m := by omega
        have hnone : (List.range m).find? p = none :=
          List.find?_eq_none.mpr fun i hi => by
            simp [hlt i (by simpa [hkeq] using List.mem_range.mp hi)]
        rw [hnone]
        subst hkeq
        simp [List.find?, hpk]

/-- C6 counterexample: with a 2001-character reply and DM delivery failing
from the second chunk on, the service's trace has three sends (the first
chunk via DM, then **every** chunk again as a channel reply) whereas the
claimed per-chunk-independent policy delivers each chunk exactly once — the
two disagree, refuting the claim. -/
theorem c6_fallback_not_per_chunk :
    sendDirectMessage dmOkFirstOnly longReply ≠ specPerChunkDelivery dmOkFirstOnly longReply := by
  have hne : (List.replicate 2001 'a' : List Char) ≠ [] := by
    intro hh
    have hlh := congrArg List.length hh
    simp only [List.length_replicate, List.length_nil] at hlh
    exact absurd hlh (by norm_num)
  have hne1 : (['a'] : List Char) ≠ [] := List.cons_ne_nil 'a' []
  have hch1 : chunkChars (['a'] : List Char) = [['a']] := by
    rw [chunkChars_eq_cons _ hne1, show (['a'] : List Char).drop 2000 = [] from rfl,
      chunkChars_eq_nil, show (['a'] : List Char).take 2000 = ['a'] from rfl]
  have hch : chunkChars longReply = [List.replicate 2000 'a', ['a']] := by
    rw [show longReply = List.replicate 2001 'a' from rfl,
      chunkChars_eq_cons _ hne, List.take_replicate, List.drop_replicate,
      show min 2000 2001 = 2000 from rfl, show 2001 - 2000 = 1 from rfl,
      show (List.replicate 1 'a' : List Char) = ['a'] from rfl, hch1]
  have hlplen : longReply.length = 2001 := by
    rw [show longReply = List.replicate 2001 'a' from rfl, List.length_replicate]
  have hlen : 2000 < longReply.length := by omega
  have hfind : (List.range 2).find? (fun i => !dmOkFirstOnly i) = some 1 := by rfl
  have h3 : (sendDirectMessage dmOkFirstOnly longReply).length = 3 := by
    generalize hg : (List.replicate 2000 'a' : List Char) = c0 at hch
    simp only [sendDirectMessage, if_pos hlen, hch]
    simp [hfind]
  have h2 : (specPerChunkDelivery dmOkFirstOnly longReply).length = 2 := by
    generalize hg : (List.replicate 2000 'a' : List Char) = c0 at hch
    simp only [specPerChunkDelivery, if_pos hlen, hch]
    simp
  intro heq
  rw [heq, h2] at h3
  exact absurd h3 (by norm_num)

/-- C6 (amended): over 2000 characters the reply is split into chunks of at
most 2000 characters whose in-order concatenation is the original text, and
the chunks are DM-sent sequentially in order; when every DM send succeeds
each chunk is delivered exactly once via DM, but on the **first** DM failure
the whole reply is re-sent: every chunk — chunks already delivered by DM
included — goes out again as a channel reply, instead of the fallback
applying to each chunk independently. -/
theorem c6_sendDirectMessage_amended (dmOk : Nat → Bool) (content : List Char)
    (h : 2000 < content.length) :
    (∀ c ∈ chunkChars content, c.length ≤ 2000) ∧
    (chunkChars content).flatten = content ∧
    ((∀ i, i < (chunkChars content).length → dmOk i = true) →
      sendDirectMessage dmOk content = (chunkChars content).map SendEvent.dm) ∧
    (∀ k, k < (chunkChars content).length → dmOk k = false →
      (∀ i < k, dmOk i = true) →
      sendDirectMessage dmOk content =
        ((chunkChars content).take k).map SendEvent.dm ++
          (chunkChars content).map SendEvent.channelReply) := by
  refine ⟨chunkChars_length_le content, chunkChars_flatten content, ?_, ?_⟩
  · intro hall
    have hfind : (List.range (chunkChars content).length).find? (fun i => !dmOk i) = none :=
      List.find?_eq_none.mpr fun i hi => by simp [hall i (List.mem_range.mp hi)]
    simp [sendDirectMessage, h, hfind]
  · intro k hk hfk hprev
    have hfind : (List.range (chunkChars content).length).find? (fun i => !dmOk i) = some k :=
      range_find?_eq_some (by simp [hfk]) (fun i hi => by simp [hprev i hi]) hk
    simp [sendDirectMessage, h, hfind]

/-- C6 amended witness: the 2001-character reply with DM delivery always
succeeding is sent as DM chunks in order. -/
theorem c6_sendDirectMessage_amended_witness :
    2000 < longReply.length ∧
    sendDirectMessage (fun _ => true) longReply = (chunkChars longReply).map SendEvent.dm := by
  have hlplen : longReply.length = 2001 := by
    rw [show longReply = List.replicate 2001 'a' from rfl, List.length_replicate]
  have hlen : 2000 < longReply.length := by omega
  exact ⟨hlen,
    (c6_sendDirectMessage_amended (fun _ => true) longReply hlen).2.2.1 fun i _ => rfl⟩

/-- C8: the auth bridge forwards array header values joined with ", ",
JSON-serializes a present body, mirrors the handler's status, headers (each
set under its own non-fatal guard) and body onto the outbound reply, and
turns any throw during bridging into exactly the fixed 500
authentication-failure reply — `authRouteHandler` is total, so no exception
passes the request boundary. -/
theorem c8_authBridge_contract {β : Type} (stringify : β → String)
    (handler : WebRequest → Except Thrown HandlerResponse)
    (headerSetOk : String → String → Bool) (req : FastifyRequest β) :
    (∀ k xs, (k, HeaderValue.multi xs) ∈ req.headers →
      (k, String.intercalate ", " xs) ∈ (buildWebRequest stringify req).headers) ∧
    (buildWebRequest stringify req).body = req.body.map stringify ∧
    (∀ resp, handler (buildWebRequest stringify req) = .ok resp →
      (authRouteHandler handler headerSetOk stringify req).status = resp.status ∧
      (authRouteHandler handler headerSetOk stringify req).headers =
        resp.headers.filter (fun kv => headerSetOk kv.1 kv.2) ∧
      ((∀ kv ∈ resp.headers, headerSetOk kv.1 kv.2 = true) →
        (authRouteHandler handler headerSetOk stringify req).headers = resp.headers) ∧
      (∀ b, resp.body = some b →
        (authRouteHandler handler headerSetOk stringify req).body = .text b) ∧
      (resp.body = none →
        (authRouteHandler handler headerSetOk stringify req).body = .nullBody)) ∧
    (∀ t, handler (buildWebRequest stringify req) = .error t →
      authRouteHandler handler headerSetOk stringify req =
        { status := 500, headers := [], contentType := none, body := .authFailureJson }) := by
  refine ⟨?_, rfl, ?_, ?_⟩
  · intro k xs hmem
    exact List.mem_filterMap.mpr ⟨(k, .multi xs), hmem, rfl⟩
  · intro resp hresp
    refine ⟨?_, ?_, ?_, ?_, ?_⟩
    · simp [authRouteHandler, hresp]
    · simp [authRouteHandler, hresp]
    · intro hall
      have hfs : resp.headers.filter (fun kv => headerSetOk kv.1 kv.2) = resp.headers :=
        List.filter_eq_self.mpr hall
      simp [authRouteHandler, hresp, hfs]
    · intro b hb
      simp [authRouteHandler, hresp, hb]
    · intro hb
      simp [authRouteHandler, hresp, hb]
  · intro t ht
    simp [authRouteHandler, ht]

/-- C8 witness: a concrete request with an array header and a body, against
a handler answering 200 with a JSON body. -/
theorem c8_authBridge_witness :
    ("accept", "application/json, text/html") ∈ (buildWebRequest bridgeStringify bridgeReq).headers ∧
    (buildWebRequest bridgeStringify bridgeReq).body = some "serialized-body" ∧
    (authRouteHandler bridgeHandler (fun _ _ => true) bridgeStringify bridgeReq).status = 200 ∧
    (authRouteHandler bridgeHandler (fun _ _ => true) bridgeStringify bridgeReq).body =
      .text "session-json" := by
  have h := c8_authBridge_contract bridgeStringify bridgeHandler (fun _ _ => true) bridgeReq
  have hok : bridgeHandler (buildWebRequest bridgeStringify bridgeReq) = .ok bridgeResp := rfl
  refine ⟨?_, ?_, ?_, ?_⟩
  · exact h.1 "accept" ["application/json", "text/html"] (by simp [bridgeReq])
  · rw [h.2.1]
    rfl
  · rw [(h.2.2.1 bridgeResp hok).1]
    rfl
  · exact (h.2.2.1 bridgeResp hok).2.2.2.1 "session-json" rfl

end FinancesAI
